import Mathlib

/-
Shallow embedding of src/main.rs of vsix-downloader-for-sync-setting.

Rust strings are modelled as lists of characters (Str); Rust
`split('.')` is `splitOnChar '.'` and `replace(".", "-")` is
`replaceChar '.' '-'`.  The ledger file `downloads.json` is modelled by
`LedgerFile` (absent on disk, present but unparsable, or parsed as a
list of records).  Network effects are passed in as oracles: an
`HttpProbe` per extension for the Open VSX lookup, and a
`Str → Except Unit DlResponse` fetch function for asset downloads.
Clock reads (`Utc::now().to_rfc3339()`) are passed in as a `now`
argument.  Console printing and the progress bar carry no data flow and
are omitted.
-/

namespace Vsix

abbrev Str := List Char

def lit (s : String) : Str := s.data

/-- Rust `str::split(c)`: splits on every occurrence of `c`, keeping
empty segments, and yields `[""]` on the empty string. -/
def splitOnChar (c : Char) : List Char → List (List Char)
  | [] => [[]]
  | x :: xs =>
    match splitOnChar c xs with
    | [] => [[]]
    | h :: t => if x = c then [] :: h :: t else (x :: h) :: t

/-- Rust `str::replace(a, b)` for single-character patterns. -/
def replaceChar (a b : Char) (s : List Char) : List Char :=
  s.map (fun x => if x = a then b else x)

/-- The `DownloadInfo` struct of src/main.rs (lines 76-86). -/
structure DownloadInfo where
  id : Str
  marketplace_url : Str
  direct_download_url : Str
  download_path : Str
  file_name : Str
  version : Option Str
  timestamp : Str
  success : Bool
deriving DecidableEq

abbrev Ledger := List DownloadInfo

/-- State of the `downloads.json` file on disk: absent, present but not
parsable as a `Vec<DownloadInfo>`, or parsed. -/
inductive LedgerFile where
  | absent
  | corrupt
  | parsed (l : Ledger)
deriving DecidableEq

/-- The load step of `create_download_info` (lines 360-369): an absent
file or unparsable content yields the empty collection
(`unwrap_or_else(|_| Vec::new())`). -/
def loadLedger : LedgerFile → Ledger
  | .absent => []
  | .corrupt => []
  | .parsed l => l

/-- Lines 371-373: `downloads.retain(|d| d.id != extension_id)` followed
by `downloads.push(download_info)`, where `info.id = extension_id`. -/
def ledgerUpsert (downloads : Ledger) (info : DownloadInfo) : Ledger :=
  downloads.filter (fun d => d.id != info.id) ++ [info]

/-- Line 335: `format!("{}/{}.{}", VSCODE_MARKETPLACE_URL, publisher, name)`. -/
def marketplace_url_of (publisher name : Str) : Str :=
  lit "https://marketplace.visualstudio.com/items/" ++ publisher ++ lit "." ++ name

/-- Lines 339-342: the fixed secondary-registry URL template. -/
def direct_download_url_of (publisher name version_str : Str) : Str :=
  lit "https://" ++ publisher ++
    lit ".gallery.vsassets.io/_apis/public/gallery/publisher/" ++ publisher ++
    lit "/extension/" ++ name ++ lit "/" ++ version_str ++
    lit "/assetbyname/Microsoft.VisualStudio.Services.VSIXPackage"

/-- `create_download_info` (lines 311-384).  Returns the Rust function's
`Result<DownloadInfo>` together with the resulting state of the
`downloads.json` file (on the error path the function returns before any
ledger I/O, so the file is returned unchanged). -/
def create_download_info (extension_id : Str) (version : Option Str)
    (custom_file_name : Option Str) (output_dir : Str) (now : Str)
    (f : LedgerFile) : Except Str DownloadInfo × LedgerFile :=
  let parts := splitOnChar '.' extension_id
  if parts.length ≠ 2 then
    (.error (lit "invalid extension id format"), f)
  else
    let publisher := parts.getD 0 []
    let name := parts.getD 1 []
    let file_name :=
      match custom_file_name with
      | some n => n
      | none => replaceChar '.' '-' extension_id ++ lit ".vsix"
    let version_str := version.getD (lit "latest")
    let info : DownloadInfo :=
      { id := extension_id
        marketplace_url := marketplace_url_of publisher name
        direct_download_url := direct_download_url_of publisher name version_str
        download_path := output_dir ++ lit "/" ++ file_name
        file_name := file_name
        version := version
        timestamp := now
        success := false }
    (.ok info, .parsed (ledgerUpsert (loadLedger f) info))

/-- The mutation of `update_download_status` (lines 448-451): set
`success` and refresh `timestamp` on the first record whose id matches
(`iter_mut().find`). -/
def set_download_status (extension_id : Str) (success : Bool) (now : Str) :
    Ledger → Ledger
  | [] => []
  | d :: rest =>
    if d.id == extension_id then
      { d with success := success, timestamp := now } :: rest
    else
      d :: set_download_status extension_id success now rest

/-- `update_download_status` (lines 437-464).  Absent file: quiet no-op.
Unparsable file: fatal error (`with_context(...)?`).  Record not found:
no write.  Record found: update it and persist the full collection. -/
def update_download_status (extension_id : Str) (success : Bool) (now : Str) :
    LedgerFile → Except Str LedgerFile
  | .absent => .ok .absent
  | .corrupt => .error (lit "Failed to parse downloads.json")
  | .parsed downloads =>
    if downloads.any (fun d => d.id == extension_id) then
      .ok (.parsed (set_download_status extension_id success now downloads))
    else
      .ok (.parsed downloads)

/-- Loosely-typed JSON value, as much structure as `serde_json::Value`
needs for the two field probes of lines 155-162. -/
inductive JsonLite where
  | str (s : Str)
  | obj (fields : List (Str × JsonLite))
  | other

/-- `serde_json::Value::get(key)` on this model: first field with the
given name in an object, `none` on non-objects. -/
def JsonLite.get : JsonLite → Str → Option JsonLite
  | .obj fields, k => (fields.find? (fun p => p.1 == k)).map (fun p => p.2)
  | _, _ => none

/-- `Value::as_str()`. -/
def JsonLite.asStr : JsonLite → Option Str
  | .str s => some s
  | _ => none

/-- A two-level string field probe: `data.get(k1).and_then(|v| v.get(k2))
.and_then(|v| v.as_str())`. -/
def jsonPathStr (data : JsonLite) (k1 k2 : Str) : Option Str :=
  ((data.get k1).bind (fun v => v.get k2)).bind JsonLite.asStr

/-- Lines 155-162: `files.download` or else `downloads.universal`. -/
def extractDownloadUrl (data : JsonLite) : Option Str :=
  (jsonPathStr data (lit "files") (lit "download")).orElse
    (fun _ => jsonPathStr data (lit "downloads") (lit "universal"))

/-- `reqwest::StatusCode::is_success()`: 200 ≤ status ≤ 299. -/
def isSuccessStatus (status : Nat) : Bool :=
  decide (200 ≤ status ∧ status < 300)

/-- Outcome of `client.get(url).send().await` followed by `.json()` for
the Open VSX probe: a transport error, or a response with a status code
and (when the status is a success and the body is read) the result of
parsing the body — `none` models a JSON parse failure. -/
inductive HttpProbe where
  | connError
  | response (status : Nat) (body : Option JsonLite)

inductive ResolutionOutcome where
  | available (url : Str)
  | unavailable
deriving DecidableEq

/-- The per-extension classification of the sync loop (lines 148-195),
with pushing into `results` abstracted into the returned outcome.
A transport error or a non-success status degrades to `unavailable`;
a parse failure on a success response is a fatal error (`?` on line 152). -/
def resolveExtension : HttpProbe → Except Str ResolutionOutcome
  | .connError => .ok .unavailable
  | .response status body =>
    if isSuccessStatus status then
      match body with
      | none => .error (lit "Failed to parse response for extension")
      | some data =>
        match extractDownloadUrl data with
        | some u => .ok (.available u)
        | none => .ok .unavailable
    else
      .ok .unavailable

/-- The `Extension` struct (lines 51-55). -/
structure Extension where
  id : Str
  uuid : Option Str
deriving DecidableEq

/-- The `AvailableExtension` struct (lines 63-68). -/
structure AvailableExtension where
  id : Str
  uuid : Option Str
  url : Str
deriving DecidableEq

/-- The `UnavailableExtension` struct (lines 70-74). -/
structure UnavailableExtension where
  id : Str
  uuid : Option Str
deriving DecidableEq

/-- The `Results` struct (lines 57-61). -/
structure Results where
  available : List AvailableExtension
  unavailable : List UnavailableExtension
deriving DecidableEq

/-- The resolution loop of `sync_extensions` (lines 140-196): skip empty
ids, classify each remaining extension via its probe, push into the
matching sequence in input order; a fatal resolver error aborts the run. -/
def sync_loop (probe : Extension → HttpProbe) :
    List Extension → Results → Except Str Results
  | [], acc => .ok acc
  | ext :: rest, acc =>
    if ext.id = [] then
      sync_loop probe rest acc
    else
      match resolveExtension (probe ext) with
      | .error e => .error e
      | .ok (.available u) =>
          sync_loop probe rest
            ⟨acc.available ++ [⟨ext.id, ext.uuid, u⟩], acc.unavailable⟩
      | .ok .unavailable =>
          sync_loop probe rest
            ⟨acc.available, acc.unavailable ++ [⟨ext.id, ext.uuid⟩]⟩

/-- The available-sequence contribution of one declared extension. -/
def avail_entry (probe : Extension → HttpProbe) (ext : Extension) :
    Option AvailableExtension :=
  if ext.id = [] then none
  else
    match resolveExtension (probe ext) with
    | .ok (.available u) => some ⟨ext.id, ext.uuid, u⟩
    | _ => none

/-- The unavailable-sequence contribution of one declared extension. -/
def unavail_entry (probe : Extension → HttpProbe) (ext : Extension) :
    Option UnavailableExtension :=
  if ext.id = [] then none
  else
    match resolveExtension (probe ext) with
    | .ok .unavailable => some ⟨ext.id, ext.uuid⟩
    | _ => none

/-- An HTTP response for an asset download: the status code and the
chunk stream of the body.  A chunk of `.error ()` models a transport
error while streaming (or a local write failure, which the loop of
lines 425-430 turns into the same per-item fatal error). -/
structure DlResponse where
  status : Nat
  chunks : List (Except Unit (List Nat))

/-- The error cases of `download_file`. -/
inductive DlError where
  | sendFailed
  | serverError (status : Nat)
  | chunkFailed
deriving DecidableEq

/-- The streaming loop of lines 425-430: bytes accumulated into the
destination file; a failed chunk aborts with the partial content left
on disk. -/
def write_chunks : List (Except Unit (List Nat)) → List Nat →
    Except DlError Unit × List Nat
  | [], acc => (.ok (), acc)
  | .error _ :: _, acc => (.error .chunkFailed, acc)
  | .ok b :: rest, acc => write_chunks rest (acc ++ b)

/-- `download_file` (lines 386-435).  Returns the Rust `Result<()>`
together with the effect on the destination path: `none` when the file
was never created (the status check on line 404 precedes
`File::create` on line 421), `some bytes` when the file was created and
holds `bytes`. -/
def download_file (resp : Except Unit DlResponse) :
    Except DlError Unit × Option (List Nat) :=
  match resp with
  | .error _ => (.error .sendFailed, none)
  | .ok r =>
    if isSuccessStatus r.status then
      let out := write_chunks r.chunks []
      (out.1, some out.2)
    else
      (.error (.serverError r.status), none)

/-- The direct download URL `create_download_info` builds for an id when
no version is supplied, as used by the download loop (line 275 passes
`version = None`). -/
def direct_url_of (extension_id : Str) : Str :=
  let parts := splitOnChar '.' extension_id
  direct_download_url_of (parts.getD 0 []) (parts.getD 1 []) (lit "latest")

/-- State threaded through `download_marketplace_extensions`: the ledger
file, the files written under the download directory, and the two
counters of lines 265-266. -/
structure BatchState where
  ledgerFile : LedgerFile
  files : List (Str × List Nat)
  successCount : Nat
  failureCount : Nat
deriving DecidableEq

/-- Record the effect of one `download_file` call on the file map. -/
def record_file (files : List (Str × List Nat)) (path : Str) :
    Option (List Nat) → List (Str × List Nat)
  | none => files
  | some bytes => (path, bytes) :: files.filter (fun e => e.1 != path)

/-- The body of the loop of `download_marketplace_extensions`
(lines 268-298) for one extension: build the download info (counting a
failure and moving on if that fails), fetch the asset, then report the
outcome to the ledger via `update_download_status` (whose error, per the
`?` on lines 283 and 288, is fatal for the whole batch). -/
def process_extension (fetch : Str → Except Unit DlResponse) (now : Str)
    (output_dir : Str) (ext : UnavailableExtension) (st : BatchState) :
    Except Str BatchState :=
  let file_name := replaceChar '.' '-' ext.id ++ lit ".vsix"
  match create_download_info ext.id none (some file_name) output_dir now
      st.ledgerFile with
  | (.error _, f) =>
      .ok { st with ledgerFile := f, failureCount := st.failureCount + 1 }
  | (.ok info, f) =>
      match download_file (fetch info.direct_download_url) with
      | (.ok _, written) =>
          match update_download_status ext.id true now f with
          | .error e => .error e
          | .ok f2 =>
              .ok { ledgerFile := f2
                    files := record_file st.files info.download_path written
                    successCount := st.successCount + 1
                    failureCount := st.failureCount }
      | (.error _, written) =>
          match update_download_status ext.id false now f with
          | .error e => .error e
          | .ok f2 =>
              .ok { ledgerFile := f2
                    files := record_file st.files info.download_path written
                    successCount := st.successCount
                    failureCount := st.failureCount + 1 }

/-- The loop of `download_marketplace_extensions` (lines 268-298): a
per-item failure is counted and the loop continues with the remaining
items. -/
def download_loop (fetch : Str → Except Unit DlResponse) (now : Str)
    (output_dir : Str) :
    List UnavailableExtension → BatchState → Except Str BatchState
  | [], st => .ok st
  | ext :: rest, st =>
    match process_extension fetch now output_dir ext st with
    | .error e => .error e
    | .ok st2 => download_loop fetch now output_dir rest st2

/-- The two operations the program ever performs on the ledger file:
the upsert embedded in `create_download_info`, and
`update_download_status`. -/
inductive LedgerOp where
  | create_info (extension_id : Str) (version : Option Str)
      (custom_file_name : Option Str) (output_dir : Str) (now : Str)
  | set_status (extension_id : Str) (success : Bool) (now : Str)

/-- Effect of one ledger operation on the ledger file.  When an
operation fails, the program aborts before writing, so the file is
unchanged. -/
def apply_ledger_op (op : LedgerOp) (f : LedgerFile) : LedgerFile :=
  match op with
  | .create_info id v c dir now => (create_download_info id v c dir now f).2
  | .set_status id s now =>
    match update_download_status id s now f with
    | .ok f2 => f2
    | .error _ => f

def apply_ledger_ops (ops : List LedgerOp) (f : LedgerFile) : LedgerFile :=
  ops.foldl (fun f op => apply_ledger_op op f) f

/-- No parsed record of the ledger file is marked succeeded. -/
def all_not_succeeded (f : LedgerFile) : Prop :=
  ∀ d ∈ loadLedger f, d.success = false

/-- The `DownloadInfo` that `create_download_info` produces for a valid
identifier when called from the download loop (no version, the default
file name passed explicitly, as on line 275). -/
def default_info (extension_id output_dir now : Str) : DownloadInfo :=
  { id := extension_id
    marketplace_url :=
      marketplace_url_of ((splitOnChar '.' extension_id).getD 0 [])
        ((splitOnChar '.' extension_id).getD 1 [])
    direct_download_url := direct_url_of extension_id
    download_path :=
      output_dir ++ lit "/" ++ (replaceChar '.' '-' extension_id ++ lit ".vsix")
    file_name := replaceChar '.' '-' extension_id ++ lit ".vsix"
    version := none
    timestamp := now
    success := false }

/-- A registry body with the asset URL at `files.download`. -/
def sampleBodyFiles (u : Str) : JsonLite :=
  .obj [(lit "files", .obj [(lit "download", .str u)])]

/-- A registry body with the asset URL at `downloads.universal`. -/
def sampleBodyDownloads (u : Str) : JsonLite :=
  .obj [(lit "downloads", .obj [(lit "universal", .str u)])]

/-- A concrete probe stub: one extension resolves via `files.download`,
one returns HTTP 404, the rest resolve via `downloads.universal`. -/
def sampleProbe : Extension → HttpProbe := fun e =>
  if e.id = lit "p.a" then .response 200 (some (sampleBodyFiles (lit "U1")))
  else if e.id = lit "p.b" then .response 404 none
  else .response 200 (some (sampleBodyDownloads (lit "U3")))

/-- A concrete declared list of three extensions. -/
def sampleExtList : List Extension :=
  [⟨lit "p.a", none⟩, ⟨lit "p.b", none⟩, ⟨lit "p.c", none⟩]

/-- A concrete ledger record, for instantiating theorems. -/
def sampleRecord (id ts : Str) (s : Bool) : DownloadInfo :=
  { id := id
    marketplace_url := []
    direct_download_url := []
    download_path := []
    file_name := []
    version := none
    timestamp := ts
    success := s }

/- Helper lemmas about the string primitives. -/

theorem splitOnChar_not_mem {c : Char} {s : List Char} (h : c ∉ s) :
    splitOnChar c s = [s] := by
  induction s with
  | nil => rfl
  | cons x xs ih =>
    have hx : x ≠ c := fun hxc => h (hxc ▸ List.mem_cons_self x xs)
    have hxs : c ∉ xs := fun hm => h (List.mem_cons_of_mem x hm)
    simp [splitOnChar, ih hxs, hx]

theorem splitOnChar_append_sep {c : Char} {p n : List Char} (hp : c ∉ p) :
    splitOnChar c (p ++ c :: n) = p :: splitOnChar c n := by
  induction p with
  | nil =>
    cases hn : splitOnChar c n with
    | nil => simp [splitOnChar, hn]
    | cons h t => simp [splitOnChar, hn]
  | cons x xs ih =>
    have hx : x ≠ c := fun hxc => hp (hxc ▸ List.mem_cons_self x xs)
    have hxs : c ∉ xs := fun hm => hp (List.mem_cons_of_mem x hm)
    simp [splitOnChar, ih hxs, hx]

theorem replaceChar_not_mem {a : Char} (b : Char) {s : List Char} (h : a ∉ s) :
    replaceChar a b s = s := by
  unfold replaceChar
  induction s with
  | nil => rfl
  | cons x xs ih =>
    have hx : x ≠ a := fun hxa => h (hxa ▸ List.mem_cons_self x xs)
    have hxs : a ∉ xs := fun hm => h (List.mem_cons_of_mem x hm)
    simp [hx, ih hxs]

theorem replaceChar_append_sep {a : Char} (b : Char) {p n : List Char}
    (hp : a ∉ p) (hn : a ∉ n) :
    replaceChar a b (p ++ a :: n) = p ++ b :: n := by
  unfold replaceChar
  rw [List.map_append]
  have h1 : replaceChar a b p = p := replaceChar_not_mem b hp
  have h2 : replaceChar a b n = n := replaceChar_not_mem b hn
  unfold replaceChar at h1 h2
  simp [h1, h2]

/-- C1 counterexample: the identifier "a." does not consist of two
non-empty dot-separated segments (its name segment is empty), yet
`create_download_info` accepts it instead of failing: the code only
checks that the split yields exactly two parts, not that they are
non-empty. -/
theorem create_download_info_accepts_empty_segment :
    splitOnChar '.' (lit "a.") = [lit "a", []] ∧
    (create_download_info (lit "a.") none none (lit "d") (lit "t")
      LedgerFile.absent).1.isOk = true := by
  exact ⟨by decide, rfl⟩

/-- C1 (amended): `create_download_info` fails exactly when the
identifier does not split on the dot separator into exactly two
segments (the segments may be empty); in the failing case it returns
the error with the ledger file untouched, before any URL construction
or I/O. -/
theorem create_download_info_invalid_iff (id : Str) (v c : Option Str)
    (dir now : Str) (f : LedgerFile) :
    ((create_download_info id v c dir now f).1.isOk = false ↔
      (splitOnChar '.' id).length ≠ 2)
    ∧ ((splitOnChar '.' id).length ≠ 2 →
      create_download_info id v c dir now f =
        (.error (lit "invalid extension id format"), f)) := by
  by_cases h : (splitOnChar '.' id).length = 2 <;>
    simp [create_download_info, h, Except.isOk, Except.toBool]

theorem create_download_info_invalid_iff_witness :
    create_download_info (lit "abc") none none (lit "d") (lit "t")
      LedgerFile.absent =
      (.error (lit "invalid extension id format"), LedgerFile.absent) :=
  (create_download_info_invalid_iff (lit "abc") none none (lit "d") (lit "t")
    LedgerFile.absent).2 (by decide)

/-- C6: for a valid identifier with non-empty dot-free publisher `p` and
name `n`, synthesis with no file-name override yields the file name
`p-n.vsix` and the fixed secondary-registry URL template instantiated
with `p`, `n` and the supplied version, the version defaulting to the
literal token "latest" when none is supplied. -/
theorem create_download_info_synthesis (p n : Str) (version : Option Str)
    (dir now : Str) (f : LedgerFile) (hp : p ≠ []) (hn : n ≠ [])
    (hpc : '.' ∉ p) (hnc : '.' ∉ n) :
    ∃ info,
      (create_download_info (p ++ '.' :: n) version none dir now f).1 = .ok info
      ∧ info.file_name = (p ++ '-' :: n) ++ lit ".vsix"
      ∧ info.direct_download_url =
          direct_download_url_of p n (version.getD (lit "latest")) := by
  have hsplit : splitOnChar '.' (p ++ '.' :: n) = [p, n] := by
    rw [splitOnChar_append_sep hpc, splitOnChar_not_mem hnc]
  have hrep : replaceChar '.' '-' (p ++ '.' :: n) = p ++ '-' :: n :=
    replaceChar_append_sep '-' hpc hnc
  have key : (create_download_info (p ++ '.' :: n) version none dir now f).1 =
      .ok { id := p ++ '.' :: n
            marketplace_url := marketplace_url_of p n
            direct_download_url :=
              direct_download_url_of p n (version.getD (lit "latest"))
            download_path := dir ++ lit "/" ++ ((p ++ '-' :: n) ++ lit ".vsix")
            file_name := (p ++ '-' :: n) ++ lit ".vsix"
            version := version
            timestamp := now
            success := false } := by
    simp [create_download_info, hsplit, hrep]
  exact ⟨_, key, rfl, rfl⟩

theorem create_download_info_synthesis_witness :
    ∃ info,
      (create_download_info (lit "pub" ++ '.' :: lit "name") none none
        (lit "downloads") (lit "t") LedgerFile.absent).1 = .ok info
      ∧ info.file_name = (lit "pub" ++ '-' :: lit "name") ++ lit ".vsix"
      ∧ info.direct_download_url =
          direct_download_url_of (lit "pub") (lit "name")
            ((none : Option Str).getD (lit "latest")) :=
  create_download_info_synthesis (lit "pub") (lit "name") none
    (lit "downloads") (lit "t") LedgerFile.absent
    (by decide) (by decide) (by decide) (by decide)

/-- C10: when the identifier is rejected as invalid, the fallback-info
operation performs no ledger I/O at all: the format check precedes any
ledger read or write, so the ledger file is returned unchanged. -/
theorem create_download_info_invalid_no_ledger_io (id : Str)
    (v c : Option Str) (dir now : Str) (f : LedgerFile)
    (h : (splitOnChar '.' id).length ≠ 2) :
    (create_download_info id v c dir now f).1.isOk = false
    ∧ (create_download_info id v c dir now f).2 = f := by
  simp [create_download_info, h, Except.isOk, Except.toBool]

/-- Filtering the upserted collection for the new record's identifier
yields exactly that record. -/
theorem ledgerUpsert_filter_self (l : Ledger) (r : DownloadInfo) :
    (ledgerUpsert l r).filter (fun d => d.id == r.id) = [r] := by
  unfold ledgerUpsert
  rw [List.filter_append, List.filter_filter]
  have hnil : l.filter (fun d => (d.id == r.id) && (d.id != r.id)) = [] := by
    refine List.filter_eq_nil_iff.2 (fun d _ => ?_)
    by_cases hd : d.id = r.id <;> simp [hd]
  simp [hnil]

/-- Upsert preserves uniqueness of identifiers in the ledger. -/
theorem ledgerUpsert_nodup (l : Ledger) (r : DownloadInfo)
    (hl : (l.map (fun d => d.id)).Nodup) :
    ((ledgerUpsert l r).map (fun d => d.id)).Nodup := by
  unfold ledgerUpsert
  rw [List.map_append, List.nodup_append]
  refine ⟨?_, by simp, ?_⟩
  · exact hl.sublist ((List.filter_sublist l).map (fun d => d.id))
  · intro x hx hx2
    simp only [List.mem_map, List.mem_filter] at hx
    obtain ⟨d, ⟨_, hne⟩, hxd⟩ := hx
    simp only [List.map_cons, List.map_nil, List.mem_singleton] at hx2
    rw [hx2] at hxd
    simp [hxd] at hne

/-- C2: an absent or unparsable ledger file is loaded as the empty
ledger; after two upserts with the same identifier the ledger contains
exactly one record for that identifier, namely the second record; and
upsert preserves uniqueness of identifiers. -/
theorem ledger_upsert_semantics (f : LedgerFile) (r1 r2 : DownloadInfo)
    (h : r1.id = r2.id) :
    (loadLedger .absent = ([] : Ledger) ∧ loadLedger .corrupt = ([] : Ledger))
    ∧ (ledgerUpsert (ledgerUpsert (loadLedger f) r1) r2).filter
        (fun d => d.id == r2.id) = [r2]
    ∧ ∀ (l : Ledger) (r : DownloadInfo),
        (l.map (fun d => d.id)).Nodup →
        ((ledgerUpsert l r).map (fun d => d.id)).Nodup := by
  exact ⟨⟨rfl, rfl⟩, ledgerUpsert_filter_self _ r2, ledgerUpsert_nodup⟩

theorem ledger_upsert_semantics_witness :
    (loadLedger .absent = ([] : Ledger) ∧ loadLedger .corrupt = ([] : Ledger))
    ∧ (ledgerUpsert
        (ledgerUpsert (loadLedger LedgerFile.corrupt)
          (sampleRecord (lit "a.b") (lit "t1") false))
        (sampleRecord (lit "a.b") (lit "t2") false)).filter
        (fun d => d.id == (sampleRecord (lit "a.b") (lit "t2") false).id) =
        [sampleRecord (lit "a.b") (lit "t2") false]
    ∧ ∀ (l : Ledger) (r : DownloadInfo),
        (l.map (fun d => d.id)).Nodup →
        ((ledgerUpsert l r).map (fun d => d.id)).Nodup :=
  ledger_upsert_semantics LedgerFile.corrupt
    (sampleRecord (lit "a.b") (lit "t1") false)
    (sampleRecord (lit "a.b") (lit "t2") false) (by decide)

theorem create_download_info_invalid_no_ledger_io_witness :
    (create_download_info (lit "a.b.c") none none (lit "d") (lit "t")
      (LedgerFile.parsed [])).1.isOk = false
    ∧ (create_download_info (lit "a.b.c") none none (lit "d") (lit "t")
      (LedgerFile.parsed [])).2 = LedgerFile.parsed [] :=
  create_download_info_invalid_no_ledger_io (lit "a.b.c") none none
    (lit "d") (lit "t") (LedgerFile.parsed []) (by decide)

/-- Members of the updated collection: each is either an untouched
original record, or the first matching record with exactly its
`success` and `timestamp` fields changed. -/
theorem set_download_status_mem (id : Str) (b : Bool) (now : Str)
    (l : Ledger) (d : DownloadInfo)
    (hd : d ∈ set_download_status id b now l) :
    d ∈ l ∨ ∃ d0 ∈ l, d0.id = id ∧
      d = { d0 with success := b, timestamp := now } := by
  induction l with
  | nil => simp [set_download_status] at hd
  | cons d0 rest ih =>
    by_cases h0 : d0.id == id
    · simp only [set_download_status, h0, if_true, List.mem_cons] at hd
      rcases hd with hd | hd
      · exact .inr ⟨d0, List.mem_cons_self d0 rest, by simpa using h0, hd⟩
      · exact .inl (List.mem_cons_of_mem d0 hd)
    · rw [Bool.not_eq_true] at h0
      simp only [set_download_status, h0, Bool.false_eq_true, if_false,
        List.mem_cons] at hd
      rcases hd with hd | hd
      · exact .inl (hd ▸ List.mem_cons_self d0 rest)
      · rcases ih hd with h | ⟨d1, hm, hi, he⟩
        · exact .inl (List.mem_cons_of_mem d0 h)
        · exact .inr ⟨d1, List.mem_cons_of_mem d0 hm, hi, he⟩

/-- C5: `update_download_status` is a quiet no-op on an absent ledger
file; leaves the ledger unchanged without error when no record matches;
updates exactly the `success` and `timestamp` fields of the matching
record and persists the collection when one matches; and fails when the
file exists but does not parse. -/
theorem update_download_status_cases :
    (∀ (id : Str) (b : Bool) (now : Str),
      update_download_status id b now .absent = .ok .absent)
    ∧ (∀ (id : Str) (b : Bool) (now : Str) (l : Ledger),
      (∀ d ∈ l, d.id ≠ id) →
      update_download_status id b now (.parsed l) = .ok (.parsed l))
    ∧ (∀ (id : Str) (b : Bool) (now : Str) (l : Ledger),
      (∃ d ∈ l, d.id = id) →
      update_download_status id b now (.parsed l) =
        .ok (.parsed (set_download_status id b now l)))
    ∧ (∀ (id : Str) (b : Bool) (now : Str) (l : Ledger) (d : DownloadInfo),
      d ∈ set_download_status id b now l →
      d ∈ l ∨ ∃ d0 ∈ l, d0.id = id ∧
        d = { d0 with success := b, timestamp := now })
    ∧ (∀ (id : Str) (b : Bool) (now : Str),
      (update_download_status id b now .corrupt).isOk = false) := by
  refine ⟨fun _ _ _ => rfl, ?_, ?_, set_download_status_mem,
    fun _ _ _ => rfl⟩
  · intro id b now l h
    have hany : l.any (fun d => d.id == id) = false := by
      cases hany : l.any (fun d => d.id == id) with
      | false => rfl
      | true =>
        rw [List.any_eq_true] at hany
        obtain ⟨d, hdm, hdb⟩ := hany
        exact absurd (by simpa using hdb) (h d hdm)
    simp [update_download_status, hany]
  · intro id b now l h
    have hany : l.any (fun d => d.id == id) = true := by
      rw [List.any_eq_true]
      obtain ⟨d, hdm, hdi⟩ := h
      exact ⟨d, hdm, by simpa using hdi⟩
    simp [update_download_status, hany]

theorem update_download_status_cases_witness :
    update_download_status (lit "x.y") true (lit "t")
      (.parsed [sampleRecord (lit "a.b") (lit "t0") false]) =
      .ok (.parsed [sampleRecord (lit "a.b") (lit "t0") false]) :=
  update_download_status_cases.2.1 (lit "x.y") true (lit "t")
    [sampleRecord (lit "a.b") (lit "t0") false] (by decide)

/-- Applying one program-ledger operation that is not a successful
status update preserves the all-records-unsucceeded invariant. -/
theorem apply_ledger_op_not_succeeded (op : LedgerOp) (f : LedgerFile)
    (hop : ∀ (id : Str) (now : Str), op ≠ .set_status id true now)
    (hf : all_not_succeeded f) :
    all_not_succeeded (apply_ledger_op op f) := by
  cases op with
  | create_info id v c dir now =>
    by_cases h : (splitOnChar '.' id).length = 2
    · intro d hd
      simp only [apply_ledger_op, create_download_info, h, ne_eq,
        not_true_eq_false, if_false, loadLedger, ledgerUpsert,
        List.mem_append] at hd
      rcases hd with hd | hd
      · exact hf d (List.mem_of_mem_filter hd)
      · simp only [List.mem_singleton] at hd
        rw [hd]
    · intro d hd
      simp only [apply_ledger_op, create_download_info, h, ne_eq,
        not_false_eq_true, if_true] at hd
      exact hf d hd
  | set_status id s now =>
    cases s with
    | true => exact absurd rfl (hop id now)
    | false =>
      cases f with
      | absent => exact hf
      | corrupt => exact hf
      | parsed l =>
        intro d hd
        simp only [apply_ledger_op, update_download_status] at hd
        by_cases hany : l.any (fun d => d.id == id)
        · simp only [hany, if_pos, loadLedger] at hd
          rcases set_download_status_mem id false now l d hd with
            h | ⟨d0, _, _, he⟩
          · exact hf d h
          · rw [he]
        · simp only [hany, Bool.false_eq_true, if_neg, loadLedger] at hd
          exact hf d hd

/-- C9: every record the upsert of `create_download_info` persists has
`success = false`, and starting from a ledger with no succeeded record,
no sequence of program-ledger operations that lacks a
`update_download_status(_, true)` call can produce a succeeded record:
`success` becomes true only through a successful status update. -/
theorem ledger_success_only_via_update :
    (∀ (id : Str) (v c : Option Str) (dir now : Str) (f : LedgerFile),
      (splitOnChar '.' id).length = 2 →
      ((create_download_info id v c dir now f).1.toOption).map
        (fun i => i.success) = some false)
    ∧ (∀ (ops : List LedgerOp) (f : LedgerFile),
      (∀ (id : Str) (now : Str), LedgerOp.set_status id true now ∉ ops) →
      all_not_succeeded f →
      all_not_succeeded (apply_ledger_ops ops f)) := by
  constructor
  · intro id v c dir now f h
    simp only [create_download_info, h, ne_eq, not_true_eq_false, if_false,
      Except.toOption]
    rfl
  · intro ops
    induction ops with
    | nil => exact fun f _ hf => hf
    | cons op rest ih =>
      intro f hops hf
      have hstep : all_not_succeeded (apply_ledger_op op f) :=
        apply_ledger_op_not_succeeded op f
          (fun id now he => hops id now (he ▸ List.mem_cons_self op rest)) hf
      have hrest : ∀ (id : Str) (now : Str),
          LedgerOp.set_status id true now ∉ rest :=
        fun id now hm => hops id now (List.mem_cons_of_mem op hm)
      exact ih (apply_ledger_op op f) hrest hstep

theorem ledger_success_only_via_update_witness :
    ((create_download_info (lit "a.b") none none (lit "d") (lit "t")
        LedgerFile.absent).1.toOption).map (fun i => i.success) = some false
    ∧ all_not_succeeded (apply_ledger_ops
        [LedgerOp.create_info (lit "a.b") none none (lit "d") (lit "t"),
         LedgerOp.set_status (lit "a.b") false (lit "t2")]
        LedgerFile.absent) := by
  constructor
  · exact ledger_success_only_via_update.1 (lit "a.b") none none (lit "d")
      (lit "t") LedgerFile.absent (by decide)
  · refine ledger_success_only_via_update.2 _ LedgerFile.absent ?_ ?_
    · intro id now hm
      simp at hm
    · intro d hd
      simp [loadLedger] at hd

/-- C3: a transport error or a non-success status from the primary
registry yields the `unavailable` outcome without a fatal error, while a
JSON-parse failure on a success-status response is a fatal error, and
such a fatal resolver error aborts the whole sync loop. -/
theorem resolver_error_policy :
    (resolveExtension .connError = .ok .unavailable)
    ∧ (∀ (status : Nat) (body : Option JsonLite),
        isSuccessStatus status = false →
        resolveExtension (.response status body) = .ok .unavailable)
    ∧ (∀ (status : Nat), isSuccessStatus status = true →
        (resolveExtension (.response status none)).isOk = false)
    ∧ (∀ (probe : Extension → HttpProbe) (ext : Extension)
        (rest : List Extension) (acc : Results) (e : Str),
        ext.id ≠ [] → resolveExtension (probe ext) = .error e →
        sync_loop probe (ext :: rest) acc = .error e) := by
  refine ⟨rfl, ?_, ?_, ?_⟩
  · intro status body h
    simp [resolveExtension, h]
  · intro status h
    simp [resolveExtension, h, Except.isOk, Except.toBool]
  · intro probe ext rest acc e hid hres
    simp [sync_loop, hid, hres]

theorem resolver_error_policy_witness :
    resolveExtension (.response 404 none) = .ok .unavailable :=
  resolver_error_policy.2.1 404 none (by decide)

/-- C4: on a success-status response body, resolution returns
`available` with the string at `files.download` when present, else with
the string at `downloads.universal` when present, and `unavailable` when
neither string field is present. -/
theorem resolver_success_fields (status : Nat) (body : JsonLite)
    (hs : isSuccessStatus status = true) :
    (∀ u, jsonPathStr body (lit "files") (lit "download") = some u →
      resolveExtension (.response status (some body)) = .ok (.available u))
    ∧ (∀ u, jsonPathStr body (lit "files") (lit "download") = none →
        jsonPathStr body (lit "downloads") (lit "universal") = some u →
      resolveExtension (.response status (some body)) = .ok (.available u))
    ∧ (jsonPathStr body (lit "files") (lit "download") = none →
       jsonPathStr body (lit "downloads") (lit "universal") = none →
      resolveExtension (.response status (some body)) = .ok .unavailable) := by
  refine ⟨?_, ?_, ?_⟩
  · intro u h1
    simp [resolveExtension, hs, extractDownloadUrl, h1, Option.orElse]
  · intro u h1 h2
    simp [resolveExtension, hs, extractDownloadUrl, h1, h2, Option.orElse]
  · intro h1 h2
    simp [resolveExtension, hs, extractDownloadUrl, h1, h2, Option.orElse]

theorem resolver_success_fields_witness :
    resolveExtension (.response 200 (some (sampleBodyFiles (lit "X")))) =
      .ok (.available (lit "X")) :=
  (resolver_success_fields 200 (sampleBodyFiles (lit "X")) (by decide)).1
    (lit "X") (by decide)

/-- The sync loop, run from any accumulator, appends to each sequence
exactly the contributions of the processed extensions, in input order. -/
theorem sync_loop_partition_aux (probe : Extension → HttpProbe)
    (exts : List Extension) :
    ∀ (acc res : Results), sync_loop probe exts acc = .ok res →
      res.available = acc.available ++ exts.filterMap (avail_entry probe)
      ∧ res.unavailable =
          acc.unavailable ++ exts.filterMap (unavail_entry probe) := by
  induction exts with
  | nil =>
    intro acc res h
    simp only [sync_loop] at h
    cases h
    simp
  | cons ext rest ih =>
    intro acc res h
    by_cases hid : ext.id = []
    · simp only [sync_loop, hid, if_true] at h
      have hacc := ih acc res h
      simp [List.filterMap_cons, avail_entry, unavail_entry, hid,
        hacc.1, hacc.2]
    · cases hres : resolveExtension (probe ext) with
      | error e => simp [sync_loop, hid, hres] at h
      | ok outcome =>
        cases outcome with
        | available u =>
          simp only [sync_loop, hid, if_false, hres] at h
          have hacc := ih _ res h
          simp [List.filterMap_cons, avail_entry, unavail_entry, hid, hres,
            hacc.1, hacc.2]
        | unavailable =>
          simp only [sync_loop, hid, if_false, hres] at h
          have hacc := ih _ res h
          simp [List.filterMap_cons, avail_entry, unavail_entry, hid, hres,
            hacc.1, hacc.2]

/-- C7: when the sync loop completes, the available sequence consists of
exactly the non-empty-identifier entries that resolved as available, and
the unavailable sequence of exactly those that resolved as unavailable,
both in original declaration order; entries with empty identifiers
appear in neither. -/
theorem sync_loop_partition (probe : Extension → HttpProbe)
    (exts : List Extension) (res : Results)
    (h : sync_loop probe exts ⟨[], []⟩ = .ok res) :
    res.available = exts.filterMap (avail_entry probe)
    ∧ res.unavailable = exts.filterMap (unavail_entry probe) := by
  have hacc := sync_loop_partition_aux probe exts ⟨[], []⟩ res h
  simpa using hacc

theorem sync_loop_partition_witness :
    (Results.mk [⟨lit "p.a", none, lit "U1"⟩, ⟨lit "p.c", none, lit "U3"⟩]
        [⟨lit "p.b", none⟩]).available =
      sampleExtList.filterMap (avail_entry sampleProbe)
    ∧ (Results.mk [⟨lit "p.a", none, lit "U1"⟩, ⟨lit "p.c", none, lit "U3"⟩]
        [⟨lit "p.b", none⟩]).unavailable =
      sampleExtList.filterMap (unavail_entry sampleProbe) :=
  sync_loop_partition sampleProbe sampleExtList
    (Results.mk [⟨lit "p.a", none, lit "U1"⟩, ⟨lit "p.c", none, lit "U3"⟩]
      [⟨lit "p.b", none⟩]) (by rfl)

/-- The download loop's `create_download_info` call on a valid
identifier produces `default_info` and upserts it. -/
theorem create_download_info_loop_call (extension_id dir now : Str)
    (f : LedgerFile) (hid : (splitOnChar '.' extension_id).length = 2) :
    create_download_info extension_id none
      (some (replaceChar '.' '-' extension_id ++ lit ".vsix")) dir now f =
      (.ok (default_info extension_id dir now),
       .parsed (ledgerUpsert (loadLedger f)
         (default_info extension_id dir now))) := by
  simp [create_download_info, hid, default_info, direct_url_of]

/-- C8: when the asset fetch returns a non-success status, the fetch
fails with the server error carrying that status, no file is created at
the destination, the failure is counted exactly once, and the download
loop continues with the remaining items. -/
theorem download_server_error_counted (fetch : Str → Except Unit DlResponse)
    (now dir : Str) (ext : UnavailableExtension) (st : BatchState)
    (rest : List UnavailableExtension) (r : DlResponse)
    (hid : (splitOnChar '.' ext.id).length = 2)
    (hf : fetch (direct_url_of ext.id) = .ok r)
    (hs : isSuccessStatus r.status = false) :
    download_file (fetch (direct_url_of ext.id)) =
      (.error (.serverError r.status), none)
    ∧ ∃ st2, process_extension fetch now dir ext st = .ok st2
        ∧ st2.failureCount = st.failureCount + 1
        ∧ st2.successCount = st.successCount
        ∧ st2.files = st.files
        ∧ download_loop fetch now dir (ext :: rest) st =
            download_loop fetch now dir rest st2 := by
  have hdl : download_file (fetch (direct_url_of ext.id)) =
      (.error (.serverError r.status), none) := by
    rw [hf]
    simp [download_file, hs]
  have hany : (ledgerUpsert (loadLedger st.ledgerFile)
      (default_info ext.id dir now)).any (fun d => d.id == ext.id) = true := by
    simp [ledgerUpsert, default_info]
  have hupd : update_download_status ext.id false now
      (.parsed (ledgerUpsert (loadLedger st.ledgerFile)
        (default_info ext.id dir now))) =
      .ok (.parsed (set_download_status ext.id false now
        (ledgerUpsert (loadLedger st.ledgerFile)
          (default_info ext.id dir now)))) := by
    simp [update_download_status, hany]
  have hproc : process_extension fetch now dir ext st =
      .ok { ledgerFile := .parsed (set_download_status ext.id false now
              (ledgerUpsert (loadLedger st.ledgerFile)
                (default_info ext.id dir now)))
            files := st.files
            successCount := st.successCount
            failureCount := st.failureCount + 1 } := by
    simp only [process_extension, create_download_info_loop_call ext.id dir
      now st.ledgerFile hid]
    have hfurl : fetch (default_info ext.id dir now).direct_download_url =
        .ok r := hf
    simp only [hfurl, download_file, hs, Bool.false_eq_true, if_false, hupd,
      record_file]
  refine ⟨hdl, _, hproc, rfl, rfl, rfl, ?_⟩
  simp [download_loop, hproc]

theorem download_server_error_counted_witness :
    download_file ((fun _ => .ok ⟨500, []⟩ :
        Str → Except Unit DlResponse) (direct_url_of (lit "a.b"))) =
      (.error (.serverError 500), none)
    ∧ ∃ st2, process_extension (fun _ => .ok ⟨500, []⟩) (lit "t") (lit "d")
          ⟨lit "a.b", none⟩ ⟨LedgerFile.absent, [], 0, 0⟩ = .ok st2
        ∧ st2.failureCount = (⟨LedgerFile.absent, [], 0, 0⟩ :
            BatchState).failureCount + 1
        ∧ st2.successCount = (⟨LedgerFile.absent, [], 0, 0⟩ :
            BatchState).successCount
        ∧ st2.files = (⟨LedgerFile.absent, [], 0, 0⟩ : BatchState).files
        ∧ download_loop (fun _ => .ok ⟨500, []⟩) (lit "t") (lit "d")
            [⟨lit "a.b", none⟩] ⟨LedgerFile.absent, [], 0, 0⟩ =
          download_loop (fun _ => .ok ⟨500, []⟩) (lit "t") (lit "d") [] st2 :=
  download_server_error_counted (fun _ => .ok ⟨500, []⟩) (lit "t") (lit "d")
    ⟨lit "a.b", none⟩ ⟨LedgerFile.absent, [], 0, 0⟩ [] ⟨500, []⟩
    (by decide) rfl (by decide)

end Vsix
